import Mathlib

/-!
Verification development for the BPM (beam propagation method) repository.

The embedding works over exact rational arithmetic. The transcendental
floating-point primitives used by the source (`np.sqrt`, `np.tan`, `np.sin`,
`np.cos`, `np.exp`) are modelled as an explicit oracle record `RealOps` of
functions `ℚ → ℚ`; every structural theorem below is proved for an arbitrary
oracle, hence in particular for the rational-valued restriction of the IEEE
double implementations the interpreter actually runs. The constant `np.pi`
is modelled by the exact rational value of the IEEE double `np.pi`. Machine
floats are idealised as exact rationals; properties that depend on rounding
of `+`, `*`, `/` rather than on program structure are outside this model.

Complex numbers (numpy `complex128`) are modelled as pairs of rationals.
Runtime failures of the interpreter (numpy broadcasting errors, index
errors) are modelled with `Option`/flag results, mirroring where the source
would raise.
-/

set_option maxRecDepth 100000
set_option maxHeartbeats 40000000

/-- Exact rational value of the IEEE-754 double `np.pi`. -/
def npPi : ℚ := 884279719003555 / 281474976710656

/-- Model of a numpy `complex128` value: a pair of (idealised) doubles. -/
structure CQ where
  re : ℚ
  im : ℚ
deriving DecidableEq, Repr

instance : Inhabited CQ := ⟨⟨0, 0⟩⟩

/-- Build a complex value from real and imaginary parts. -/
def mkC (a b : ℚ) : CQ := ⟨a, b⟩

/-- Complex zero. -/
def cZero : CQ := ⟨0, 0⟩

/-- Complex addition. -/
def cadd (a b : CQ) : CQ := ⟨a.re + b.re, a.im + b.im⟩

/-- Complex subtraction. -/
def csub (a b : CQ) : CQ := ⟨a.re - b.re, a.im - b.im⟩

/-- Complex multiplication. -/
def cmul (a b : CQ) : CQ := ⟨a.re * b.re - a.im * b.im, a.re * b.im + a.im * b.re⟩

/-- Multiplication of a complex value by a real scalar. -/
def csmul (q : ℚ) (a : CQ) : CQ := ⟨q * a.re, q * a.im⟩

/-- Division of a complex value by a real scalar. -/
def cdivq (a : CQ) (q : ℚ) : CQ := ⟨a.re / q, a.im / q⟩

/-- Model of `np.roll` for a 1D array: `(npRoll a k)[i] = a[(i - k) mod n]`.
`np.roll(a, 1)` moves every element one slot up (cyclically), `np.roll(a, -1)`
one slot down. -/
def npRoll [Inhabited α] (l : List α) (k : ℤ) : List α :=
  (List.range l.length).map (fun (i : ℕ) =>
    l.getD ((((i : ℤ) - k) % (l.length : ℤ)).toNat) default)

/-- Model of a numpy elementwise binary operation on two 1D arrays, with
numpy's length-1 broadcasting; arrays of different lengths (neither of
length 1) raise, modelled by `none`. -/
def npBin [Inhabited α] [Inhabited β] (f : α → β → γ) (a : List α) (b : List β) :
    Option (List γ) :=
  if a.length = b.length then some (List.zipWith f a b)
  else if a.length = 1 then some (b.map (f (a.getD 0 default)))
  else if b.length = 1 then some (a.map (fun x => f x (b.getD 0 default)))
  else none

/-- Model of `compute_dE_dz` (src/bpm/core.py): the BPM right-hand side
`(i/(2 k0 n0)) ∂²E/∂x² + i (k0/(2 n0)) (n_r² - n0²) E - σ(x) E`
with the cyclic-shift finite-difference Laplacian. Lengths that numpy
cannot broadcast yield `none` (a raised exception). -/
def compute_dE_dz (Es : List CQ) (nr2s : List ℚ) (dx n0 : ℚ) (sigmas : List ℚ)
    (k0 : ℚ) : Option (List CQ) := do
  let lap1 ← npBin csub (npRoll Es 1) (Es.map (csmul 2))
  let lap2 ← npBin cadd lap1 (npRoll Es (-1))
  let laplacianE := lap2.map (fun c => cdivq c (dx ^ 2))
  let laplacianTerm := laplacianE.map (fun c => cmul (mkC 0 (1 / (2 * k0 * n0))) c)
  let indexTerm ← npBin (fun q e => cmul (mkC 0 (k0 / (2 * n0) * q)) e)
    (nr2s.map (fun q => q - n0 ^ 2)) Es
  let dampingTerm ← npBin (fun s e => csmul (-s) e) sigmas Es
  let t1 ← npBin cadd laplacianTerm indexTerm
  npBin cadd t1 dampingTerm

/-- The pointwise right-hand side stated by the specification for
`compute_dE_dz`: `(i/(2 k0 n0)) (E[(i+1) mod Nx] - 2 E[i] + E[(i-1) mod Nx])/dx²
+ i (k0/(2 n0)) (n_r2[i] - n0²) E[i] - sigma_x[i] E[i]`, with `(i-1) mod Nx`
written as `(i + Nx - 1) % Nx`. -/
def bpm_rhs_formula (Es : List CQ) (nr2s : List ℚ) (dx n0 : ℚ) (sigmas : List ℚ)
    (k0 : ℚ) (i : ℕ) : CQ :=
  cadd (cadd
    (cmul (mkC 0 (1 / (2 * k0 * n0)))
      (cdivq (cadd (csub (Es.getD ((i + 1) % Es.length) cZero)
                         (csmul 2 (Es.getD i cZero)))
                   (Es.getD ((i + Es.length - 1) % Es.length) cZero)) (dx ^ 2)))
    (cmul (mkC 0 (k0 / (2 * n0) * (nr2s.getD i 0 - n0 ^ 2))) (Es.getD i cZero)))
  (csmul (-(sigmas.getD i 0)) (Es.getD i cZero))

/-- One RK4 update of `run_bpm` (src/bpm/core.py): from the previous column
`Eprev` and the index-map column `nsl` sampled at the previous axial
position, produce `Eprev + (k1 + 2 k2 + 2 k3 + k4)/6`. -/
def rk4_next (Eprev : List CQ) (nsl : List ℚ) (dx dz n0 : ℚ) (sigmas : List ℚ)
    (k0 : ℚ) : Option (List CQ) := do
  let k1 ← (compute_dE_dz Eprev nsl dx n0 sigmas k0).map (List.map (csmul dz))
  let a2 ← npBin cadd Eprev (k1.map (fun c => cdivq c 2))
  let k2 ← (compute_dE_dz a2 nsl dx n0 sigmas k0).map (List.map (csmul dz))
  let a3 ← npBin cadd Eprev (k2.map (fun c => cdivq c 2))
  let k3 ← (compute_dE_dz a3 nsl dx n0 sigmas k0).map (List.map (csmul dz))
  let a4 ← npBin cadd Eprev k3
  let k4 ← (compute_dE_dz a4 nsl dx n0 sigmas k0).map (List.map (csmul dz))
  let s1 ← npBin cadd k1 (k2.map (csmul 2))
  let s2 ← npBin cadd s1 (k3.map (csmul 2))
  let s3 ← npBin cadd s2 k4
  npBin cadd Eprev (s3.map (fun c => cdivq c 6))

/-- A 2D array stored as its list of columns (numpy axis 1); `E[:, j]` is
column `j`. -/
abbrev FieldCols := List (List CQ)

/-- Model of reading column `j` (`A[:, j]`); out-of-range raises. -/
def getCol (F : List α) (j : ℕ) : Option α := F[j]?

/-- Model of the assignment `E[:, j] = v`: the stored column keeps its
length, numpy broadcasts a length-1 value, and a length mismatch raises. -/
def setCol (F : FieldCols) (j : ℕ) (v : List CQ) : Option FieldCols :=
  if j < F.length then
    if (F.getD j []).length = v.length then some (F.set j v)
    else if v.length = 1 then
      some (F.set j (List.replicate (F.getD j []).length (v.getD 0 cZero)))
    else none
  else none

/-- One loop iteration of `run_bpm` at axial index `zi`: read the previous
field column and the previous index-map column, apply the RK4 update, store
the result in column `zi`. `none` models an exception escaping from the
iteration. -/
def bpm_step (nr2 : List (List ℚ)) (dx dz n0 : ℚ) (sigmas : List ℚ) (k0 : ℚ)
    (F : FieldCols) (zi : ℕ) : Option FieldCols := do
  let Eprev ← getCol F (zi - 1)
  let nsl ← getCol nr2 (zi - 1)
  let v ← rk4_next Eprev nsl dx dz n0 sigmas k0
  setCol F zi v

/-- Run the marching loop over the given axial indices. The result is the
final state of the (in-place mutated) field array together with a flag that
is `true` when an exception was raised; on an exception the columns already
written persist, mirroring in-place numpy mutation. -/
def run_bpm_aux (step : FieldCols → ℕ → Option FieldCols) :
    List ℕ → FieldCols → FieldCols × Bool
  | [], F => (F, false)
  | zi :: rest, F =>
    match step F zi with
    | some F2 => run_bpm_aux step rest F2
    | none => (F, true)

/-- Model of `run_bpm` (src/bpm/core.py): RK4 marching over `zi = 1 .. len(z)-1`.
The coordinate array `x` is accepted but — exactly as in the source — never
read. No shape validation of any kind is performed before marching. -/
def run_bpm (E : FieldCols) (nr2 : List (List ℚ)) (x z : List ℚ)
    (dx dz n0 : ℚ) (sigmas : List ℚ) (wavelength : ℚ) : FieldCols × Bool :=
  let k0 := 2 * npPi / wavelength
  run_bpm_aux (bpm_step nr2 dx dz n0 sigmas k0) (List.range' 1 (z.length - 1)) E

/-- Oracle record for the floating-point transcendental primitives used by
the mode solver. Any function the interpreter computes for `np.sqrt` etc. is
(on float inputs) a map of rationals, so an arbitrary `RealOps` instance
covers the real program; concrete computable instances are used to exhibit
executions. -/
structure RealOps where
  sqrt : ℚ → ℚ
  tan : ℚ → ℚ
  sin : ℚ → ℚ
  cos : ℚ → ℚ
  exp : ℚ → ℚ

/-- The argument `x` of `slab_mode_source` before `np.asarray(x).ndim` is
checked: either a 1D array of coordinates, or an array of some other
dimensionality (whose contents the model does not need). -/
inductive XInput where
  | arr1d (xs : List ℚ)
  | arrNd (ndim : ℕ)
deriving DecidableEq

/-- Runtime value passed as `ind_m`. A Python `int`, a Python `float`, or a
numpy integer scalar (the latter two are not `isinstance(·, int)`). -/
inductive PyIndex where
  | pyInt (n : ℤ)
  | pyFloat (q : ℚ)
  | pyNpInt (n : ℤ)
deriving DecidableEq

/-- Model of `isinstance(ind_m, int)`. -/
def PyIndex.isInt : PyIndex → Bool
  | .pyInt _ => true
  | _ => false

/-- The distinct `ValueError`s raised by `slab_mode_source`, one constructor
per `raise` site (identified by its message). -/
inductive ModeError where
  | xNot1D
  | wNotPos
  | indexOrder
  | n0NotPos
  | wavelengthNotPos
  | indMInvalid
  | noGuidedModes
deriving DecidableEq

/-- Mode parity, the first component of the `("even"/"odd", beta)` pairs. -/
inductive Parity where
  | even
  | odd
deriving DecidableEq, Repr

/-- Model of the closure `f_even`: the even characteristic function
`kx tan(kx w/2) - kappa`, undefined (`None`) outside the guided band or
where a radicand is non-positive. -/
def f_even (ops : RealOps) (n0 k0 nWG w : ℚ) (beta : ℚ) : Option ℚ :=
  if beta < n0 * k0 ∨ beta > nWG * k0 then none
  else
    let inside := nWG ^ 2 * k0 ^ 2 - beta ^ 2
    let outside := beta ^ 2 - n0 ^ 2 * k0 ^ 2
    if inside ≤ 0 ∨ outside ≤ 0 then none
    else
      let kx := ops.sqrt inside
      let kappa := ops.sqrt outside
      some (kx * ops.tan (kx * w / 2) - kappa)

/-- Model of the closure `f_odd`: the odd characteristic function
`-kx cot(kx w/2) - kappa`, additionally undefined where `|sin(kx w/2)|`
is below `1e-12`. -/
def f_odd (ops : RealOps) (n0 k0 nWG w : ℚ) (beta : ℚ) : Option ℚ :=
  if beta < n0 * k0 ∨ beta > nWG * k0 then none
  else
    let inside := nWG ^ 2 * k0 ^ 2 - beta ^ 2
    let outside := beta ^ 2 - n0 ^ 2 * k0 ^ 2
    if inside ≤ 0 ∨ outside ≤ 0 then none
    else
      let kx := ops.sqrt inside
      let kappa := ops.sqrt outside
      let sinTerm := ops.sin (kx * w / 2)
      if |sinTerm| < 1 / 1000000000000 then none
      else some (-kx * (ops.cos (kx * w / 2) / sinTerm) - kappa)

/-- Model of `valid_even`: branch-index check for refined even roots. -/
def valid_even (ops : RealOps) (nWG k0 w : ℚ) (beta : ℚ) : Bool :=
  let inside := nWG ^ 2 * k0 ^ 2 - beta ^ 2
  if inside ≤ 0 then false
  else
    let kx := ops.sqrt inside
    let theta := kx * w / 2
    let m := ⌊2 * theta / npPi⌋
    if m % 2 = 0 then !(decide (m = 0) && decide (npPi / 2 - 1 / 10 < theta))
    else false

/-- Model of `valid_odd`: branch-index check for refined odd roots. -/
def valid_odd (ops : RealOps) (nWG k0 w : ℚ) (beta : ℚ) : Bool :=
  let inside := nWG ^ 2 * k0 ^ 2 - beta ^ 2
  if inside ≤ 0 then false
  else
    let kx := ops.sqrt inside
    let theta := kx * w / 2
    let m := ⌊2 * theta / npPi⌋
    decide (m % 2 = 1)

/-- Model of `np.linspace(lo, hi, n)` in exact arithmetic. -/
def linspaceQ (lo hi : ℚ) (n : ℕ) : List ℚ :=
  (List.range n).map (fun (i : ℕ) => lo + (i : ℚ) * ((hi - lo) / ((n : ℚ) - 1)))

/-- The sign-change scan of the source (`for i in range(N-1)` over the
precomputed `(beta, f(beta))` samples): collect every adjacent pair whose
values are both defined and of opposite sign. -/
def adjBrackets : List (ℚ × Option ℚ) → List (ℚ × ℚ)
  | [] => []
  | [_] => []
  | p :: q :: t =>
    match p.2, q.2 with
    | some v1, some v2 =>
      if v1 * v2 < 0 then (p.1, q.1) :: adjBrackets (q :: t) else adjBrackets (q :: t)
    | _, _ => adjBrackets (q :: t)

/-- Model of `refine_root`: bisection with at most `fuel` (in the source 50)
iterations. When an iteration leaves the loop without returning, the update
continues, and after the final iteration the last midpoint is returned —
whether or not the `1e-9` tolerance was ever met. -/
def refine_root (f : ℚ → Option ℚ) : ℕ → ℚ → ℚ → ℚ
  | 0, bl, br => (bl + br) / 2
  | fuel + 1, bl, br =>
    match f ((bl + br) / 2) with
    | none => if fuel = 0 then (bl + br) / 2 else refine_root f fuel bl ((bl + br) / 2)
    | some vmid =>
      if |vmid| < 1 / 1000000000 then (bl + br) / 2
      else
        match f bl with
        | none =>
          if fuel = 0 then (bl + br) / 2 else refine_root f fuel ((bl + br) / 2) br
        | some vleft =>
          if vleft * vmid > 0 then
            (if fuel = 0 then (bl + br) / 2 else refine_root f fuel ((bl + br) / 2) br)
          else
            (if fuel = 0 then (bl + br) / 2 else refine_root f fuel bl ((bl + br) / 2))

/-- Stable insertion (descending by `beta`) used to model Python's stable
`sorted(modes, key=beta, reverse=True)`: an element is placed after every
already-placed element with an equal or larger key. -/
def insertDesc (m : Parity × ℚ) : List (Parity × ℚ) → List (Parity × ℚ)
  | [] => [m]
  | h :: t => if m.2 > h.2 then m :: h :: t else h :: insertDesc m t

/-- Stable sort, descending by `beta` (same function as Python's stable
`sorted(..., reverse=True)` on the `beta` key). -/
def sortDescBeta (l : List (Parity × ℚ)) : List (Parity × ℚ) :=
  l.foldr insertDesc []

/-- The root search of `slab_mode_source`: scan 2000 uniformly spaced `beta`
samples over `[n0 k0, nWG k0]`, bracket sign changes of both characteristic
functions, refine each bracket by bisection, keep the roots passing the
branch-consistency check, and sort all found modes by `beta` descending. -/
def modes_sorted (ops : RealOps) (w nWG n0 k0 : ℚ) : List (Parity × ℚ) :=
  let scan := linspaceQ (n0 * k0) (nWG * k0) 2000
  let evenPairs := scan.map (fun b => (b, f_even ops n0 k0 nWG w b))
  let oddPairs := scan.map (fun b => (b, f_odd ops n0 k0 nWG w b))
  let evenRoots := (adjBrackets evenPairs).filterMap (fun p =>
    let r := refine_root (f_even ops n0 k0 nWG w) 50 p.1 p.2
    if valid_even ops nWG k0 w r then some r else none)
  let oddRoots := (adjBrackets oddPairs).filterMap (fun p =>
    let r := refine_root (f_odd ops n0 k0 nWG w) 50 p.1 p.2
    if valid_odd ops nWG k0 w r then some r else none)
  let modes := evenRoots.map (fun r => (Parity.even, r)) ++ oddRoots.map (fun r => (Parity.odd, r))
  sortDescBeta modes

/-- Rational sign, matching `np.sign` (sign of `0` is `0`). -/
def qsign (q : ℚ) : ℚ :=
  if q < 0 then -1 else if q = 0 then 0 else 1

/-- Construction of the unnormalized mode profile over the coordinates `xs`
for the chosen `(parity, beta)`: oscillatory inside the core, evanescent
outside (lines 190-208 of src/bpm/mode_solver.py). -/
def mode_field (ops : RealOps) (xs : List ℚ) (w x0 nWG n0 k0 : ℚ)
    (m : Parity × ℚ) : List CQ :=
  let inside := nWG ^ 2 * k0 ^ 2 - m.2 ^ 2
  let outside := m.2 ^ 2 - n0 ^ 2 * k0 ^ 2
  let kx := ops.sqrt inside
  let kappa := ops.sqrt outside
  xs.map (fun xi =>
    let xp := xi - x0
    match m.1 with
    | .even =>
      if |xp| ≤ w / 2 then mkC (ops.cos (kx * xp)) 0
      else mkC (ops.cos (kx * (w / 2)) * ops.exp (-kappa * (|xp| - w / 2))) 0
    | .odd =>
      if |xp| ≤ w / 2 then mkC (ops.sin (kx * xp)) 0
      else mkC (qsign xp * ops.sin (kx * (w / 2)) * ops.exp (-kappa * (|xp| - w / 2))) 0)

/-- Model of `np.abs(e)**2` on a complex128 element: the float absolute
value (a square root) is computed first and then squared. -/
def abs_sq_np (ops : RealOps) (z : CQ) : ℚ := ops.sqrt (z.re ^ 2 + z.im ^ 2) ^ 2

/-- Model of `np.trapezoid(y, x)`: sum of `(y_i + y_{i+1})/2 * (x_{i+1} - x_i)`. -/
def trapezoidQ : List ℚ → List ℚ → ℚ
  | y1 :: y2 :: yt, x1 :: x2 :: xt =>
    (y1 + y2) / 2 * (x2 - x1) + trapezoidQ (y2 :: yt) (x2 :: xt)
  | _, _ => 0

/-- The normalization step of `slab_mode_source`: divide the field by
`sqrt(trapezoid(|E|^2, x))` (lines 209-210). Division by a zero norm is
modelled by rational division by zero; on floats it produces non-finite
values — in both semantics the result is not unit-normalized. -/
def normalize_field (ops : RealOps) (xs : List ℚ) (E : List CQ) : List CQ :=
  let normv := ops.sqrt (trapezoidQ (E.map (abs_sq_np ops)) xs)
  E.map (fun z => cdivq z normv)

deriving instance DecidableEq for Except

/-- Model of `slab_mode_source` (src/bpm/mode_solver.py). The result is
`(warned, field)` on success, where `warned` records whether the non-fatal
mode-index clamp warning was emitted; errors are the `raise` sites. -/
def slab_mode_source (ops : RealOps) (x : XInput) (w nWG n0 wavelength : ℚ)
    (ind_m : PyIndex) (x0 : ℚ) : Except ModeError (Bool × List CQ) :=
  match x with
  | .arrNd _ => .error .xNot1D
  | .arr1d xs =>
    if w ≤ 0 then .error .wNotPos
    else if nWG ≤ n0 then .error .indexOrder
    else if n0 ≤ 0 then .error .n0NotPos
    else if wavelength ≤ 0 then .error .wavelengthNotPos
    else
      match ind_m with
      | .pyInt n =>
        if n < 0 then .error .indMInvalid
        else
          let k0 := 2 * npPi / wavelength
          let ms := modes_sorted ops w nWG n0 k0
          if ms.isEmpty then .error .noGuidedModes
          else
            let warned := decide ((ms.length : ℤ) ≤ n)
            let idx := if (ms.length : ℤ) ≤ n then ms.length - 1 else n.toNat
            .ok (warned, normalize_field ops xs
              (mode_field ops xs w x0 nWG n0 k0 (ms.getD idx (Parity.even, 0))))
      | _ => .error .indMInvalid

/-- The shape-disagreement condition named by the specification for
`run_bpm`: the field's or index map's transverse length differs from that of
`x` or `sigma_x`, or their column count differs from the length of `z`. -/
def shapes_disagree (E : FieldCols) (nr2 : List (List ℚ)) (x sigmas z : List ℚ) : Prop :=
  (E.getD 0 []).length ≠ x.length ∨ (E.getD 0 []).length ≠ sigmas.length ∨
  (nr2.getD 0 []).length ≠ x.length ∨ (nr2.getD 0 []).length ≠ sigmas.length ∨
  E.length ≠ z.length ∨ nr2.length ≠ z.length

instance (E : FieldCols) (nr2 : List (List ℚ)) (x sigmas z : List ℚ) :
    Decidable (shapes_disagree E nr2 x sigmas z) := by
  unfold shapes_disagree
  infer_instance

/-- Whether an optional characteristic-function value is within the
refinement tolerance of the specification: undefined, or of magnitude below
`1e-9`. -/
def below_tol (o : Option ℚ) : Bool :=
  match o with
  | none => true
  | some v => decide (|v| < 1 / 1000000000)

/-- Dispatch the characteristic function of a parity. -/
def char_fn (ops : RealOps) (n0 k0 nWG w : ℚ) : Parity → ℚ → Option ℚ
  | .even => f_even ops n0 k0 nWG w
  | .odd => f_odd ops n0 k0 nWG w

/-- A concrete computable oracle instance used to exhibit executions of the
mode solver: `sqrt` and `tan` are the identity, `sin` is constantly `0`
(making every odd characteristic value undefined), `cos` constantly `1`,
`exp` the identity. With `w = 2`, `n_WG = 2`, `n0 = 1`, `k0 = 1` the even
characteristic becomes `(4 - beta²)² - (beta² - 1)`, which has exactly one
sign change on the scan, giving exactly one (even) mode. -/
def opsA : RealOps where
  sqrt := fun q => q
  tan := fun q => q
  sin := fun _ => 0
  cos := fun _ => 1
  exp := fun q => q

/-- A concrete computable oracle whose `tan` is a step function (a jump like
the one the float `tan` has across each asymptote of a branch). With `w = 2`,
`n_WG = 3`, `n0 = 1`, `k0 = 1` the scan brackets the jump at `beta = sqrt 5`
although the even characteristic has no root there; bisection stalls at the
jump, the 50 iterations expire without ever meeting the `1e-9` tolerance,
and `valid_even` accepts the returned point (its branch index is `2`). -/
def opsB : RealOps where
  sqrt := fun q => q
  tan := fun t => if t ≤ 4 then 5 else -5
  sin := fun _ => 0
  cos := fun _ => 1
  exp := fun q => q

/-- A concrete computable oracle under which the root search finds exactly
one mode, of odd parity: `tan` is constantly `0` (so the even characteristic
`-kappa` is negative everywhere and brackets nothing), `sin` is the
identity and `cos t = -t²` (so with `w = 2`, `n_WG = 3`, `n0 = 1`, `k0 = 1`
the odd characteristic is `u² + u - 8` in `u = 9 - beta²`, with a single
sign change at a root that `valid_odd` accepts, branch index 1). This
mirrors what the float `tan`/`cot` produce when the 2000-point scan misses
the narrow fundamental even branch of a very wide slab. -/
def opsC : RealOps where
  sqrt := fun q => q
  tan := fun _ => 0
  sin := fun q => q
  cos := fun t => -t ^ 2
  exp := fun q => q

/-- Check that a `slab_mode_source` result is a success whose returned field
differs at the two grid points of a two-point mirror-symmetric grid, by more
than `1/100` in the real part — i.e. the returned profile is not an even
function of `x`. -/
def mirror_mismatch_check (res : Except ModeError (Bool × List CQ)) : Bool :=
  match res with
  | .ok (_, E) =>
    decide (¬(E.getD 0 cZero = E.getD 1 cZero)) &&
      decide (1 / 100 < |(E.getD 0 cZero).re - (E.getD 1 cZero).re|)
  | .error _ => false

/-! ### Helper lemmas about the numpy array models -/

theorem npBin_eq_length {γ : Type} {f : α → β → γ} [Inhabited α] [Inhabited β]
    {a : List α} {b : List β} (h : a.length = b.length) :
    npBin f a b = some (List.zipWith f a b) := by
  simp [npBin, h]

theorem npBin_none {γ : Type} {f : α → β → γ} [Inhabited α] [Inhabited β]
    {a : List α} {b : List β} (h : a.length ≠ b.length) (h1 : a.length ≠ 1)
    (h2 : b.length ≠ 1) : npBin f a b = none := by
  simp [npBin, h, h1, h2]

theorem npRoll_length [Inhabited α] (l : List α) (k : ℤ) :
    (npRoll l k).length = l.length := by
  rw [npRoll, List.length_map, List.length_range]

theorem getElem?_npRoll [Inhabited α] (l : List α) (k : ℤ) (i : ℕ) (h : i < l.length) :
    (npRoll l k)[i]? = some (l.getD ((((i : ℤ) - k) % (l.length : ℤ)).toNat) default) := by
  rw [npRoll, List.getElem?_map, List.getElem?_range h]
  rfl

theorem roll_idx_sub (i n : ℕ) (hn : 0 < n) :
    (((i : ℤ) - 1) % (n : ℤ)).toNat = (i + n - 1) % n := by
  have h0 : (i : ℤ) - 1 = ((i + n - 1 : ℕ) : ℤ) + n * (-1) := by
    push_cast [Nat.cast_sub (by omega : 1 ≤ i + n)]
    ring
  rw [h0, Int.add_mul_emod_self_left, ← Int.natCast_mod, Int.toNat_natCast]

theorem roll_idx_add (i n : ℕ) (hn : 0 < n) :
    (((i : ℤ) - (-1)) % (n : ℤ)).toNat = (i + 1) % n := by
  have h0 : (i : ℤ) - (-1) = ((i + 1 : ℕ) : ℤ) := by push_cast; ring
  rw [h0, ← Int.natCast_mod, Int.toNat_natCast]

theorem getD_eq_getElem?_or {l : List α} {i : ℕ} {d : α} (h : i < l.length) :
    l[i]? = some (l.getD i d) := by
  rw [List.getD_eq_getElem?_getD]
  rcases List.getElem?_eq_some_iff.2 ⟨h, rfl⟩ with h2
  simp [List.getElem?_eq_getElem h]

/-- Workhorse: at matching lengths, `compute_dE_dz` succeeds and its `i`-th
entry is exactly the pointwise BPM right-hand side of the specification,
with periodic wrap-around indices `(i+1) % Nx` and `(i+Nx-1) % Nx`. -/
theorem compute_dE_dz_eq (Es : List CQ) (nr2s : List ℚ) (dx n0 : ℚ)
    (sigmas : List ℚ) (k0 : ℚ) (h1 : nr2s.length = Es.length)
    (h2 : sigmas.length = Es.length) :
    compute_dE_dz Es nr2s dx n0 sigmas k0 =
      some ((List.range Es.length).map (bpm_rhs_formula Es nr2s dx n0 sigmas k0)) := by
  unfold bpm_rhs_formula
  have e1 : npBin csub (npRoll Es 1) (Es.map (csmul 2)) =
      some (List.zipWith csub (npRoll Es 1) (Es.map (csmul 2))) :=
    npBin_eq_length (by simp [npRoll_length])
  have len1 : (List.zipWith csub (npRoll Es 1) (Es.map (csmul 2))).length = Es.length := by
    simp [npRoll_length]
  have e2 : npBin cadd (List.zipWith csub (npRoll Es 1) (Es.map (csmul 2))) (npRoll Es (-1)) =
      some (List.zipWith cadd (List.zipWith csub (npRoll Es 1) (Es.map (csmul 2)))
        (npRoll Es (-1))) :=
    npBin_eq_length (by simp [npRoll_length])
  have e3 : npBin (fun q e => cmul (mkC 0 (k0 / (2 * n0) * q)) e)
      (nr2s.map (fun q => q - n0 ^ 2)) Es =
      some (List.zipWith (fun q e => cmul (mkC 0 (k0 / (2 * n0) * q)) e)
        (nr2s.map (fun q => q - n0 ^ 2)) Es) :=
    npBin_eq_length (by simp [h1])
  have e4 : npBin (fun s e => csmul (-s) e) sigmas Es =
      some (List.zipWith (fun s e => csmul (-s) e) sigmas Es) :=
    npBin_eq_length h2
  rw [compute_dE_dz]
  simp only [e1, e2, e3, e4, Option.bind_eq_bind, Option.some_bind]
  rw [npBin_eq_length (by simp [npRoll_length, h1]), Option.some_bind,
    npBin_eq_length (by simp [npRoll_length, h1, h2])]
  refine congrArg some (List.ext_getElem? (fun i => ?_))
  rcases Nat.lt_or_ge i Es.length with hi | hi
  · have hn : 0 < Es.length := by omega
    have hdc : (default : CQ) = cZero := rfl
    simp only [List.getElem?_zipWith, List.getElem?_map,
      getElem?_npRoll Es 1 i hi, getElem?_npRoll Es (-1) i hi,
      List.getElem?_range hi,
      getD_eq_getElem?_or (l := Es) (d := cZero) hi,
      getD_eq_getElem?_or (l := nr2s) (d := (0 : ℚ)) (h1 ▸ hi),
      getD_eq_getElem?_or (l := sigmas) (d := (0 : ℚ)) (h2 ▸ hi),
      roll_idx_sub i Es.length hn, roll_idx_add i Es.length hn,
      hdc, Option.map_some', Option.some.injEq]
    simp only [cadd, csub, cmul, csmul, cdivq, mkC, cZero, CQ.mk.injEq]
    constructor <;> ring
  · have hz : (List.range Es.length)[i]? = none := List.getElem?_eq_none (by simpa using hi)
    have h4 : sigmas[i]? = none := List.getElem?_eq_none (by omega)
    simp [List.getElem?_zipWith, List.getElem?_map, hz, h4]

theorem getD_map_range {f : ℕ → α} {n i : ℕ} (hi : i < n) (d : α) :
    ((List.range n).map f).getD i d = f i := by
  rw [List.getD_eq_getElem?_getD, List.getElem?_map, List.getElem?_range hi]
  rfl

theorem compute_dE_dz_some (Es : List CQ) (nr2s : List ℚ) (dx n0 : ℚ)
    (sigmas : List ℚ) (k0 : ℚ) (h1 : nr2s.length = Es.length)
    (h2 : sigmas.length = Es.length) :
    ∃ l, compute_dE_dz Es nr2s dx n0 sigmas k0 = some l ∧ l.length = Es.length :=
  ⟨_, compute_dE_dz_eq Es nr2s dx n0 sigmas k0 h1 h2, by simp⟩

theorem compute_dE_dz_none (Es : List CQ) (nr2s : List ℚ) (dx n0 : ℚ)
    (sigmas : List ℚ) (k0 : ℚ) (hne : nr2s.length ≠ Es.length)
    (ha : nr2s.length ≠ 1) (hb : Es.length ≠ 1) :
    compute_dE_dz Es nr2s dx n0 sigmas k0 = none := by
  rw [compute_dE_dz]
  rw [npBin_eq_length (by simp [npRoll_length])]
  simp only [Option.bind_eq_bind, Option.some_bind]
  rw [npBin_eq_length (by simp [npRoll_length])]
  simp only [Option.some_bind]
  rw [npBin_none (by simpa using hne) (by simpa using ha) hb]
  rfl

theorem rk4_next_some (Eprev : List CQ) (nsl : List ℚ) (dx dz n0 : ℚ)
    (sigmas : List ℚ) (k0 : ℚ) (h1 : nsl.length = Eprev.length)
    (h2 : sigmas.length = Eprev.length) :
    ∃ v, rk4_next Eprev nsl dx dz n0 sigmas k0 = some v ∧ v.length = Eprev.length := by
  obtain ⟨l1, e1, hl1⟩ := compute_dE_dz_some Eprev nsl dx n0 sigmas k0 h1 h2
  rw [rk4_next, e1]
  simp only [Option.map_some', Option.bind_eq_bind, Option.some_bind]
  rw [npBin_eq_length (by simp [hl1] <;> omega)]
  simp only [Option.some_bind]
  have ha2 : (List.zipWith cadd Eprev
      ((l1.map (csmul dz)).map (fun c => cdivq c 2))).length = Eprev.length := by
    simp [hl1] <;> omega
  obtain ⟨l2, e2, hl2⟩ := compute_dE_dz_some _ nsl dx n0 sigmas k0
    (by rw [h1, ha2]) (by rw [h2, ha2])
  rw [e2]
  rw [ha2] at hl2
  simp only [Option.map_some', Option.some_bind]
  rw [npBin_eq_length (by simp [hl2, ha2] <;> omega)]
  simp only [Option.some_bind]
  have ha3 : (List.zipWith cadd Eprev
      ((l2.map (csmul dz)).map (fun c => cdivq c 2))).length = Eprev.length := by
    simp [hl2, ha2] <;> omega
  obtain ⟨l3, e3, hl3⟩ := compute_dE_dz_some _ nsl dx n0 sigmas k0
    (by rw [h1, ha3]) (by rw [h2, ha3])
  rw [e3]
  rw [ha3] at hl3
  simp only [Option.map_some', Option.some_bind]
  rw [npBin_eq_length (by simp [hl3, ha3] <;> omega)]
  simp only [Option.some_bind]
  have ha4 : (List.zipWith cadd Eprev (l3.map (csmul dz))).length = Eprev.length := by
    simp [hl3, ha3] <;> omega
  obtain ⟨l4, e4, hl4⟩ := compute_dE_dz_some _ nsl dx n0 sigmas k0
    (by rw [h1, ha4]) (by rw [h2, ha4])
  rw [e4]
  rw [ha4] at hl4
  simp only [Option.map_some', Option.some_bind]
  rw [npBin_eq_length (by simp [hl1, hl2, ha2, ha3] <;> omega)]
  simp only [Option.some_bind]
  rw [npBin_eq_length (by simp [hl1, hl2, hl3, ha2, ha3, ha4] <;> omega)]
  simp only [Option.some_bind]
  rw [npBin_eq_length (by simp [hl1, hl2, hl3, hl4, ha2, ha3, ha4] <;> omega)]
  simp only [Option.some_bind]
  rw [npBin_eq_length (by simp [hl1, hl2, hl3, hl4, ha2, ha3, ha4] <;> omega)]
  exact ⟨_, rfl, by simp [hl1, hl2, hl3, hl4, ha2, ha3, ha4] <;> omega⟩

theorem rk4_next_none (Eprev : List CQ) (nsl : List ℚ) (dx dz n0 : ℚ)
    (sigmas : List ℚ) (k0 : ℚ) (hne : nsl.length ≠ Eprev.length)
    (ha : nsl.length ≠ 1) (hb : Eprev.length ≠ 1) :
    rk4_next Eprev nsl dx dz n0 sigmas k0 = none := by
  rw [rk4_next, compute_dE_dz_none Eprev nsl dx n0 sigmas k0 hne ha hb]
  rfl

/-- The single-iteration effect of the marching loop under well-formed
shapes: the RK4 update of the previous column is stored at index `a`. -/
theorem bpm_step_eq (nr2 : List (List ℚ)) (dx dz n0 : ℚ) (sigmas : List ℚ)
    (k0 : ℚ) (F : FieldCols) (a : ℕ) (ha : 1 ≤ a) (haF : a < F.length)
    (hanr : a - 1 < nr2.length)
    (hFc : ∀ c ∈ F, c.length = sigmas.length)
    (hnrc : ∀ c ∈ nr2, c.length = sigmas.length) :
    ∃ v, rk4_next (F.getD (a - 1) []) (nr2.getD (a - 1) []) dx dz n0 sigmas k0 = some v ∧
      v.length = sigmas.length ∧
      bpm_step nr2 dx dz n0 sigmas k0 F a = some (F.set a v) := by
  have haF1 : a - 1 < F.length := by omega
  have he0len : (F.getD (a - 1) []).length = sigmas.length := by
    rw [List.getD_eq_getElem _ _ haF1]
    exact hFc _ (List.getElem_mem haF1)
  have hnslen : (nr2.getD (a - 1) []).length = sigmas.length := by
    rw [List.getD_eq_getElem _ _ hanr]
    exact hnrc _ (List.getElem_mem hanr)
  obtain ⟨v, hv, hvlen⟩ := rk4_next_some (F.getD (a - 1) []) (nr2.getD (a - 1) [])
    dx dz n0 sigmas k0 (by rw [hnslen, he0len]) (by rw [he0len])
  refine ⟨v, hv, by rw [hvlen, he0len], ?_⟩
  rw [bpm_step, getCol, getD_eq_getElem?_or (d := ([] : List CQ)) haF1,
    getCol, getD_eq_getElem?_or (d := ([] : List ℚ)) hanr]
  simp only [Option.bind_eq_bind, Option.some_bind, hv]
  have hcollen : (F.getD a []).length = v.length := by
    rw [List.getD_eq_getElem _ _ haF]
    rw [hvlen, he0len]
    exact hFc _ (List.getElem_mem haF)
  rw [setCol, if_pos haF, if_pos hcollen]

/-- Loop invariant for `run_bpm_aux` over the index block `[a, a+b)` under
well-formed shapes: no exception is raised, shapes are preserved, columns
outside the block are untouched, and every column in the block equals the
RK4 update of the (final) previous column with the index map sampled at the
previous axial position. -/
theorem run_bpm_aux_spec (nr2 : List (List ℚ)) (dx dz n0 : ℚ) (sigmas : List ℚ)
    (k0 : ℚ) (Nz : ℕ) (hnr : nr2.length = Nz)
    (hnrc : ∀ c ∈ nr2, c.length = sigmas.length) :
    ∀ (b a : ℕ) (F : FieldCols), 1 ≤ a → a + b ≤ Nz → F.length = Nz →
      (∀ c ∈ F, c.length = sigmas.length) →
      (run_bpm_aux (bpm_step nr2 dx dz n0 sigmas k0) (List.range' a b) F).2 = false ∧
      (run_bpm_aux (bpm_step nr2 dx dz n0 sigmas k0) (List.range' a b) F).1.length = Nz ∧
      (∀ c ∈ (run_bpm_aux (bpm_step nr2 dx dz n0 sigmas k0) (List.range' a b) F).1,
        c.length = sigmas.length) ∧
      (∀ j, j < a →
        (run_bpm_aux (bpm_step nr2 dx dz n0 sigmas k0) (List.range' a b) F).1[j]? = F[j]?) ∧
      (∀ j, a + b ≤ j →
        (run_bpm_aux (bpm_step nr2 dx dz n0 sigmas k0) (List.range' a b) F).1[j]? = F[j]?) ∧
      (∀ j, a ≤ j → j < a + b →
        (run_bpm_aux (bpm_step nr2 dx dz n0 sigmas k0) (List.range' a b) F).1[j]? =
          rk4_next
            ((run_bpm_aux (bpm_step nr2 dx dz n0 sigmas k0) (List.range' a b) F).1.getD (j - 1) [])
            (nr2.getD (j - 1) []) dx dz n0 sigmas k0) := by
  intro b
  induction b with
  | zero =>
    intro a F _ _ hFlen hFc
    exact ⟨rfl, hFlen, hFc, fun _ _ => rfl, fun _ _ => rfl,
      fun j h1 h2 => absurd h2 (by omega)⟩
  | succ b ih =>
    intro a F ha hab hFlen hFc
    obtain ⟨v, hv, hvlen, hstep⟩ := bpm_step_eq nr2 dx dz n0 sigmas k0 F a ha
      (by omega) (by omega) hFc hnrc
    have hrange : List.range' a (b + 1) = a :: List.range' (a + 1) b := List.range'_succ a b 1
    have hred : run_bpm_aux (bpm_step nr2 dx dz n0 sigmas k0) (List.range' a (b + 1)) F =
        run_bpm_aux (bpm_step nr2 dx dz n0 sigmas k0) (List.range' (a + 1) b) (F.set a v) := by
      rw [hrange, run_bpm_aux, hstep]
    have hsetc : ∀ c ∈ F.set a v, c.length = sigmas.length := by
      intro c hc
      rcases List.mem_or_eq_of_mem_set hc with hc2 | hc2
      · exact hFc c hc2
      · rw [hc2, hvlen]
    obtain ⟨r1, r2, r3, r4, r5, r6⟩ := ih (a + 1) (F.set a v) (by omega) (by omega)
      (by rw [List.length_set, hFlen]) hsetc
    rw [hred]
    have hva : a < F.length := by omega
    have hgetS : ∀ j, j ≠ a →
        (F.set a v)[j]? = F[j]? := fun j hj => List.getElem?_set_ne (by omega)
    refine ⟨r1, r2, r3, ?_, ?_, ?_⟩
    · intro j hj
      rw [r4 j (by omega), hgetS j (by omega)]
    · intro j hj
      rw [r5 j (by omega), hgetS j (by omega)]
    · intro j hj1 hj2
      rcases Nat.eq_or_lt_of_le hj1 with rfl | hj
      · have hprev : (run_bpm_aux (bpm_step nr2 dx dz n0 sigmas k0)
            (List.range' (a + 1) b) (F.set a v)).1.getD (a - 1) [] = F.getD (a - 1) [] := by
          rw [List.getD_eq_getElem?_getD, r4 (a - 1) (by omega), hgetS (a - 1) (by omega),
            ← List.getD_eq_getElem?_getD]
        rw [hprev, r4 a (by omega), List.getElem?_set_self (by omega), hv]
      · rw [r6 j (by omega) (by omega)]

/-! ### Helper lemmas about the mode-solver model -/

theorem f_even_some_bounds {ops : RealOps} {n0 k0 nWG w beta v : ℚ}
    (h : f_even ops n0 k0 nWG w beta = some v) :
    n0 * k0 < beta ∧ beta < nWG * k0 := by
  simp only [f_even] at h
  split_ifs at h with h1 h2
  push_neg at h1 h2
  obtain ⟨hge, hle⟩ := h1
  obtain ⟨hins, hout⟩ := h2
  constructor
  · rcases lt_or_eq_of_le hge with hlt | heq
    · exact hlt
    · exfalso
      rw [← heq] at hout
      nlinarith
  · rcases lt_or_eq_of_le hle with hlt | heq
    · exact hlt
    · exfalso
      rw [heq] at hins
      nlinarith

theorem f_odd_some_bounds {ops : RealOps} {n0 k0 nWG w beta v : ℚ}
    (h : f_odd ops n0 k0 nWG w beta = some v) :
    n0 * k0 < beta ∧ beta < nWG * k0 := by
  simp only [f_odd] at h
  split_ifs at h with h1 h2 h3
  push_neg at h1 h2
  obtain ⟨hge, hle⟩ := h1
  obtain ⟨hins, hout⟩ := h2
  constructor
  · rcases lt_or_eq_of_le hge with hlt | heq
    · exact hlt
    · exfalso
      rw [← heq] at hout
      nlinarith
  · rcases lt_or_eq_of_le hle with hlt | heq
    · exact hlt
    · exfalso
      rw [heq] at hins
      nlinarith

theorem refine_root_mem (f : ℚ → Option ℚ) :
    ∀ (fuel : ℕ) (bl br : ℚ), bl < br →
      bl < refine_root f fuel bl br ∧ refine_root f fuel bl br < br := by
  intro fuel
  induction fuel with
  | zero =>
    intro bl br h
    constructor <;> simp only [refine_root] <;> linarith
  | succ fuel ih =>
    intro bl br h
    have hmid1 : bl < (bl + br) / 2 := by linarith
    have hmid2 : (bl + br) / 2 < br := by linarith
    have hL := ih bl ((bl + br) / 2) hmid1
    have hR := ih ((bl + br) / 2) br hmid2
    simp only [refine_root]
    by_cases h0 : fuel = 0
    · simp only [if_pos h0]
      cases f ((bl + br) / 2) with
      | none => exact ⟨hmid1, hmid2⟩
      | some vmid =>
        dsimp only
        split_ifs with htol
        · exact ⟨hmid1, hmid2⟩
        · cases f bl with
          | none => exact ⟨hmid1, hmid2⟩
          | some vleft =>
            dsimp only
            split_ifs <;> exact ⟨hmid1, hmid2⟩
    · simp only [if_neg h0]
      cases f ((bl + br) / 2) with
      | none => exact ⟨hL.1, lt_trans hL.2 hmid2⟩
      | some vmid =>
        dsimp only
        split_ifs with htol
        · exact ⟨hmid1, hmid2⟩
        · cases f bl with
          | none => exact ⟨lt_trans hmid1 hR.1, hR.2⟩
          | some vleft =>
            dsimp only
            split_ifs with hsign
            · exact ⟨lt_trans hmid1 hR.1, hR.2⟩
            · exact ⟨hL.1, lt_trans hL.2 hmid2⟩

theorem adjBrackets_mem (f : ℚ → Option ℚ) :
    ∀ (l : List ℚ) (p : ℚ × ℚ), p ∈ adjBrackets (l.map (fun b => (b, f b))) →
      (∃ v1, f p.1 = some v1) ∧ (∃ v2, f p.2 = some v2) ∧
      ∃ i, l[i]? = some p.1 ∧ l[i + 1]? = some p.2 := by
  intro l
  induction l with
  | nil =>
    intro p hp
    simp [adjBrackets] at hp
  | cons b1 t ih =>
    cases t with
    | nil =>
      intro p hp
      simp [adjBrackets] at hp
    | cons b2 t2 =>
      intro p hp
      simp only [List.map_cons] at hp
      rcases hf1 : f b1 with _ | v1 <;> rcases hf2 : f b2 with _ | v2 <;>
        simp only [adjBrackets, hf1, hf2] at hp
      · obtain ⟨e1, e2, i, g1, g2⟩ := ih p (by simpa [hf2] using hp)
        exact ⟨e1, e2, i + 1, by simpa using g1, by simpa using g2⟩
      · obtain ⟨e1, e2, i, g1, g2⟩ := ih p (by simpa [hf2] using hp)
        exact ⟨e1, e2, i + 1, by simpa using g1, by simpa using g2⟩
      · obtain ⟨e1, e2, i, g1, g2⟩ := ih p (by simpa [hf2] using hp)
        exact ⟨e1, e2, i + 1, by simpa using g1, by simpa using g2⟩
      · split_ifs at hp with hprod
        · rcases List.mem_cons.1 hp with rfl | hp2
          · exact ⟨⟨v1, hf1⟩, ⟨v2, hf2⟩, 0, by simp, by simp⟩
          · obtain ⟨e1, e2, i, g1, g2⟩ := ih p (by simpa [hf2] using hp2)
            exact ⟨e1, e2, i + 1, by simpa using g1, by simpa using g2⟩
        · obtain ⟨e1, e2, i, g1, g2⟩ := ih p (by simpa [hf2] using hp)
          exact ⟨e1, e2, i + 1, by simpa using g1, by simpa using g2⟩

theorem linspaceQ_getElem {lo hi : ℚ} {n i : ℕ} (hilt : i < n) :
    (linspaceQ lo hi n)[i]? = some (lo + (i : ℚ) * ((hi - lo) / ((n : ℚ) - 1))) := by
  rw [linspaceQ, List.getElem?_map, List.getElem?_range hilt]
  rfl

theorem linspaceQ_step_pos {lo hi : ℚ} {n : ℕ} {i : ℕ} {a b : ℚ}
    (hlo : lo < hi) (hn : 2 ≤ n)
    (ha : (linspaceQ lo hi n)[i]? = some a) (hb : (linspaceQ lo hi n)[i + 1]? = some b) :
    a < b := by
  have hi1 : i + 1 < n := by
    by_contra hcon
    rw [List.getElem?_eq_none (by simp [linspaceQ]; omega)] at hb
    exact Option.noConfusion hb
  have hi0 : i < n := by omega
  rw [linspaceQ_getElem hi0] at ha
  rw [linspaceQ_getElem hi1] at hb
  have hstep : (0 : ℚ) < (hi - lo) / ((n : ℚ) - 1) := by
    apply div_pos (by linarith)
    have : (2 : ℚ) ≤ (n : ℚ) := by exact_mod_cast hn
    linarith
  have hcast : ((i + 1 : ℕ) : ℚ) = (i : ℚ) + 1 := by push_cast; ring
  rw [← Option.some_inj.1 ha, ← Option.some_inj.1 hb, hcast]
  nlinarith

theorem mem_insertDesc {m x : Parity × ℚ} :
    ∀ {l : List (Parity × ℚ)}, x ∈ insertDesc m l ↔ x = m ∨ x ∈ l := by
  intro l
  induction l with
  | nil => simp [insertDesc]
  | cons h t ih =>
    simp only [insertDesc]
    split_ifs with hgt
    · simp [List.mem_cons]
    · simp only [List.mem_cons, ih]
      tauto

theorem mem_sortDescBeta {x : Parity × ℚ} :
    ∀ {l : List (Parity × ℚ)}, x ∈ sortDescBeta l ↔ x ∈ l := by
  intro l
  induction l with
  | nil => simp [sortDescBeta]
  | cons h t ih =>
    simp only [sortDescBeta, List.foldr_cons]
    rw [show List.foldr insertDesc [] t = sortDescBeta t from rfl] at *
    rw [mem_insertDesc, ih, List.mem_cons]

theorem trapezoidQ_map_mul (c : ℚ) :
    ∀ (y x : List ℚ), trapezoidQ (y.map (fun v => v * c)) x = trapezoidQ y x * c := by
  intro y
  induction y with
  | nil =>
    intro x
    simp [trapezoidQ]
  | cons y1 yt ih =>
    intro x
    cases yt with
    | nil =>
      cases x with
      | nil => simp [trapezoidQ]
      | cons x1 xt => simp [trapezoidQ]
    | cons y2 yt2 =>
      cases x with
      | nil => simp [trapezoidQ]
      | cons x1 xt =>
        cases xt with
        | nil => simp [trapezoidQ]
        | cons x2 xt2 =>
          simp only [List.map_cons, trapezoidQ]
          have := ih (x2 :: xt2)
          simp only [List.map_cons] at this
          rw [this]
          ring

/-! ### Claims -/

section ClaimSection

attribute [local semireducible] Rat.add Rat.mul Rat.inv Rat.sub Rat.ofScientific

/-- Claim C4: for every complex field slice `E` of length `Nx`, with an
index-map slice and damping profile of the same length, `compute_dE_dz`
succeeds and returns pointwise at each transverse index `i` the value
`(i/(2 k0 n0))·(E[(i+1) mod Nx] − 2 E[i] + E[(i−1) mod Nx])/dx²
+ i·(k0/(2 n0))·(n_r2[i] − n0²)·E[i] − sigma_x[i]·E[i]`; in particular the
finite-difference Laplacian wraps around periodically at both transverse
edges (indices taken modulo `Nx`). -/
theorem compute_dE_dz_pointwise (Es : List CQ) (nr2s : List ℚ) (dx n0 : ℚ)
    (sigmas : List ℚ) (k0 : ℚ) (h1 : nr2s.length = Es.length)
    (h2 : sigmas.length = Es.length) :
    ∃ l, compute_dE_dz Es nr2s dx n0 sigmas k0 = some l ∧ l.length = Es.length ∧
      ∀ i, i < Es.length → l.getD i cZero = bpm_rhs_formula Es nr2s dx n0 sigmas k0 i := by
  refine ⟨_, compute_dE_dz_eq Es nr2s dx n0 sigmas k0 h1 h2, by simp, ?_⟩
  intro i hi
  exact getD_map_range hi cZero

/-- Witness for claim C4 at a concrete slice of length 2. -/
theorem compute_dE_dz_pointwise_witness :
    ([1, 2] : List ℚ).length = ([mkC 1 0, mkC 0 1] : List CQ).length ∧
    ([0, 1] : List ℚ).length = ([mkC 1 0, mkC 0 1] : List CQ).length ∧
    ∃ l, compute_dE_dz [mkC 1 0, mkC 0 1] [1, 2] 1 1 [0, 1] 1 = some l ∧
      l.length = ([mkC 1 0, mkC 0 1] : List CQ).length ∧
      ∀ i, i < ([mkC 1 0, mkC 0 1] : List CQ).length →
        l.getD i cZero = bpm_rhs_formula [mkC 1 0, mkC 0 1] [1, 2] 1 1 [0, 1] 1 i :=
  ⟨by decide, by decide,
    compute_dE_dz_pointwise [mkC 1 0, mkC 0 1] [1, 2] 1 1 [0, 1] 1 (by decide) (by decide)⟩

/-- Claim C3: for every axial index `zi` from 1 to `Nz - 1`, the column
`E[:, zi]` produced by `run_bpm` equals `E[:, zi-1] + (k1 + 2 k2 + 2 k3 + k4)/6`
(the four-stage RK4 combination computed by `rk4_next`), where all four
stages evaluate the derivative with the index-map column sampled at the
previous axial position `zi - 1`, never at `zi`. -/
theorem run_bpm_rk4_recurrence (E : FieldCols) (nr2 : List (List ℚ)) (x z : List ℚ)
    (dx dz n0 : ℚ) (sigmas : List ℚ) (wavelength : ℚ)
    (hE : E.length = z.length) (hnr : nr2.length = z.length)
    (hEc : ∀ c ∈ E, c.length = sigmas.length)
    (hnrc : ∀ c ∈ nr2, c.length = sigmas.length) :
    ∀ zi, 1 ≤ zi → zi < z.length →
      (run_bpm E nr2 x z dx dz n0 sigmas wavelength).1[zi]? =
        rk4_next ((run_bpm E nr2 x z dx dz n0 sigmas wavelength).1.getD (zi - 1) [])
          (nr2.getD (zi - 1) []) dx dz n0 sigmas (2 * npPi / wavelength) := by
  intro zi hz1 hz2
  have hspec := run_bpm_aux_spec nr2 dx dz n0 sigmas (2 * npPi / wavelength) z.length hnr
    hnrc (z.length - 1) 1 E (le_refl 1) (by omega) hE hEc
  exact hspec.2.2.2.2.2 zi hz1 (by omega)

/-- Witness for claim C3 at a concrete 1-by-2 grid. -/
theorem run_bpm_rk4_recurrence_witness :
    ([[mkC 1 0], [cZero]] : FieldCols).length = ([0, 1] : List ℚ).length ∧
    ([[1], [1]] : List (List ℚ)).length = ([0, 1] : List ℚ).length ∧
    (∀ c ∈ ([[mkC 1 0], [cZero]] : FieldCols), c.length = ([0] : List ℚ).length) ∧
    (∀ c ∈ ([[1], [1]] : List (List ℚ)), c.length = ([0] : List ℚ).length) ∧
    ∀ zi, 1 ≤ zi → zi < ([0, 1] : List ℚ).length →
      (run_bpm [[mkC 1 0], [cZero]] [[1], [1]] [0] [0, 1] 1 1 1 [0] 1).1[zi]? =
        rk4_next ((run_bpm [[mkC 1 0], [cZero]] [[1], [1]] [0] [0, 1] 1 1 1 [0] 1).1.getD
          (zi - 1) []) (([[1], [1]] : List (List ℚ)).getD (zi - 1) []) 1 1 1 [0]
          (2 * npPi / 1) :=
  ⟨by decide, by decide, by decide, by decide,
    run_bpm_rk4_recurrence [[mkC 1 0], [cZero]] [[1], [1]] [0] [0, 1] 1 1 1 [0] 1
      (by decide) (by decide) (by decide) (by decide)⟩

/-- Claim C8: `run_bpm` never modifies the launch column — column 0 of the
returned array is identical to the caller-supplied `E[:, 0]` — columns at or
beyond `len(z)` are untouched as well, and every column `1 ≤ zi < len(z)` is
produced from the immediately preceding column only, via the RK4 update with
the index map sampled at the preceding position. -/
theorem run_bpm_frame (E : FieldCols) (nr2 : List (List ℚ)) (x z : List ℚ)
    (dx dz n0 : ℚ) (sigmas : List ℚ) (wavelength : ℚ)
    (hE : E.length = z.length) (hnr : nr2.length = z.length)
    (hEc : ∀ c ∈ E, c.length = sigmas.length)
    (hnrc : ∀ c ∈ nr2, c.length = sigmas.length) :
    (run_bpm E nr2 x z dx dz n0 sigmas wavelength).1[0]? = E[0]? ∧
    (∀ j, z.length ≤ j → (run_bpm E nr2 x z dx dz n0 sigmas wavelength).1[j]? = E[j]?) ∧
    (∀ zi, 1 ≤ zi → zi < z.length →
      (run_bpm E nr2 x z dx dz n0 sigmas wavelength).1[zi]? =
        rk4_next ((run_bpm E nr2 x z dx dz n0 sigmas wavelength).1.getD (zi - 1) [])
          (nr2.getD (zi - 1) []) dx dz n0 sigmas (2 * npPi / wavelength)) := by
  rcases Nat.eq_zero_or_pos z.length with hz | hz
  · have hempty : run_bpm E nr2 x z dx dz n0 sigmas wavelength = (E, false) := by
      show run_bpm_aux _ (List.range' 1 (z.length - 1)) E = (E, false)
      rw [hz]
      rfl
    rw [hempty]
    exact ⟨rfl, fun j hj => rfl, fun zi h1 h2 => by omega⟩
  · have hspec := run_bpm_aux_spec nr2 dx dz n0 sigmas (2 * npPi / wavelength) z.length hnr
      hnrc (z.length - 1) 1 E (le_refl 1) (by omega) hE hEc
    exact ⟨hspec.2.2.2.1 0 (by omega), fun j hj => hspec.2.2.2.2.1 j (by omega),
      fun zi h1 h2 => hspec.2.2.2.2.2 zi h1 (by omega)⟩

/-- Witness for claim C8 at a concrete 1-by-3 grid. -/
theorem run_bpm_frame_witness :
    ([[mkC 1 0], [cZero], [cZero]] : FieldCols).length = ([0, 1, 2] : List ℚ).length ∧
    ([[1], [1], [1]] : List (List ℚ)).length = ([0, 1, 2] : List ℚ).length ∧
    (∀ c ∈ ([[mkC 1 0], [cZero], [cZero]] : FieldCols), c.length = ([0] : List ℚ).length) ∧
    (∀ c ∈ ([[1], [1], [1]] : List (List ℚ)), c.length = ([0] : List ℚ).length) ∧
    ((run_bpm [[mkC 1 0], [cZero], [cZero]] [[1], [1], [1]] [0] [0, 1, 2] 1 1 1 [0] 1).1[0]? =
      ([[mkC 1 0], [cZero], [cZero]] : FieldCols)[0]? ∧
    (∀ j, ([0, 1, 2] : List ℚ).length ≤ j →
      (run_bpm [[mkC 1 0], [cZero], [cZero]] [[1], [1], [1]] [0] [0, 1, 2] 1 1 1 [0] 1).1[j]? =
        ([[mkC 1 0], [cZero], [cZero]] : FieldCols)[j]?) ∧
    (∀ zi, 1 ≤ zi → zi < ([0, 1, 2] : List ℚ).length →
      (run_bpm [[mkC 1 0], [cZero], [cZero]] [[1], [1], [1]] [0] [0, 1, 2] 1 1 1 [0] 1).1[zi]? =
        rk4_next ((run_bpm [[mkC 1 0], [cZero], [cZero]] [[1], [1], [1]] [0] [0, 1, 2]
            1 1 1 [0] 1).1.getD (zi - 1) [])
          (([[1], [1], [1]] : List (List ℚ)).getD (zi - 1) []) 1 1 1 [0] (2 * npPi / 1))) :=
  ⟨by decide, by decide, by decide, by decide,
    run_bpm_frame [[mkC 1 0], [cZero], [cZero]] [[1], [1], [1]] [0] [0, 1, 2] 1 1 1 [0] 1
      (by decide) (by decide) (by decide) (by decide)⟩

/-- Counterexample to claim C1 as stated: a call in which the shapes
disagree (here `x` has length 3 while the field and index map have
transverse length 1) yet `run_bpm` raises no error at all — it runs to
completion and writes column 1 — because the source performs no shape
validation and never reads `x`. (The source defines no `DimensionMismatch`
error anywhere.) -/
theorem run_bpm_shape_check_cex :
    shapes_disagree [[mkC 1 0], [cZero]] [[1], [1]] [0, 0, 0] [0] [0, 1] ∧
    (run_bpm [[mkC 1 0], [cZero]] [[1], [1]] [0, 0, 0] [0, 1] 1 1 1 [0] (2 * npPi)).2 =
      false ∧
    (run_bpm [[mkC 1 0], [cZero]] [[1], [1]] [0, 0, 0] [0, 1] 1 1 1 [0] (2 * npPi)).1 ≠
      [[mkC 1 0], [cZero]] := by
  constructor
  · left
    decide
  constructor
  · decide
  · decide

/-- Claim C1 (amended): `run_bpm` performs no upfront shape validation and
never reads `x`; a shape disagreement surfaces (if at all) as a runtime
broadcasting/indexing error during marching. In the specific case of a
transverse-length mismatch between the field and the index map (both
lengths at least 2), the error is raised during the first derivative
evaluation of the first marching step, so the field is returned unchanged
with no column written. Mismatches involving only `x` cause no error, and a
column-count shortfall fails only after the earlier columns were written. -/
theorem run_bpm_transverse_mismatch_aborts (E : FieldCols) (nr2 : List (List ℚ))
    (x z : List ℚ) (dx dz n0 : ℚ) (sigmas : List ℚ) (wavelength : ℚ)
    (e0 : List CQ) (nc : List ℚ)
    (he : E[0]? = some e0) (hnc : nr2[0]? = some nc)
    (hlen : e0.length ≠ nc.length) (he2 : 2 ≤ e0.length) (hn2 : 2 ≤ nc.length)
    (hz : 2 ≤ z.length) :
    run_bpm E nr2 x z dx dz n0 sigmas wavelength = (E, true) := by
  have hrange : List.range' 1 (z.length - 1) = 1 :: List.range' 2 (z.length - 2) := by
    have h21 : z.length - 1 = (z.length - 2) + 1 := by omega
    rw [h21, List.range'_succ]
  show run_bpm_aux (bpm_step nr2 dx dz n0 sigmas (2 * npPi / wavelength))
    (List.range' 1 (z.length - 1)) E = (E, true)
  rw [hrange, run_bpm_aux]
  have hstep : bpm_step nr2 dx dz n0 sigmas (2 * npPi / wavelength) E 1 = none := by
    rw [bpm_step]
    have hg1 : getCol E (1 - 1) = some e0 := he
    have hg2 : getCol nr2 (1 - 1) = some nc := hnc
    rw [hg1, hg2]
    simp only [Option.bind_eq_bind, Option.some_bind]
    rw [rk4_next_none e0 nc dx dz n0 sigmas (2 * npPi / wavelength)
      (by omega) (by omega) (by omega)]
    rfl
  rw [hstep]

/-- Witness for the amended claim C1: a concrete transverse mismatch (field
2 rows, index map 3 rows) aborts with the field unchanged. -/
theorem run_bpm_transverse_mismatch_aborts_witness :
    (([[mkC 1 0, cZero], [cZero, cZero]] : FieldCols)[0]? = some [mkC 1 0, cZero]) ∧
    (([[1, 1, 1], [1, 1, 1]] : List (List ℚ))[0]? = some [1, 1, 1]) ∧
    ([mkC 1 0, cZero] : List CQ).length ≠ ([1, 1, 1] : List ℚ).length ∧
    2 ≤ ([mkC 1 0, cZero] : List CQ).length ∧
    2 ≤ ([1, 1, 1] : List ℚ).length ∧
    2 ≤ ([0, 1] : List ℚ).length ∧
    run_bpm [[mkC 1 0, cZero], [cZero, cZero]] [[1, 1, 1], [1, 1, 1]] [0, 0] [0, 1]
      1 1 1 [0, 0] 1 = ([[mkC 1 0, cZero], [cZero, cZero]], true) :=
  ⟨by decide, by decide, by decide, by decide, by decide, by decide,
    run_bpm_transverse_mismatch_aborts [[mkC 1 0, cZero], [cZero, cZero]]
      [[1, 1, 1], [1, 1, 1]] [0, 0] [0, 1] 1 1 1 [0, 0] 1 [mkC 1 0, cZero] [1, 1, 1]
      (by decide) (by decide) (by decide) (by decide) (by decide) (by decide)⟩

/-- Claim C2 (amended): every propagation constant found by the mode
solver's root search lies strictly inside the open interval
`(n0 k0, nWG k0)` (assuming the scan interval is non-degenerate). The
original claim's second conjunct — that the characteristic-function
magnitude at every returned root is below the refinement tolerance `1e-9`
(or undefined) — does not hold: `refine_root` returns its final midpoint
after 50 bisections whether or not the tolerance was met, and the branch
validators can accept such a point (see the counterexample). -/
theorem mode_solver_beta_in_open_interval (ops : RealOps) (w nWG n0 k0 : ℚ)
    (hlt : n0 * k0 < nWG * k0) :
    ∀ m ∈ modes_sorted ops w nWG n0 k0, n0 * k0 < m.2 ∧ m.2 < nWG * k0 := by
  intro m hm
  simp only [modes_sorted] at hm
  rw [mem_sortDescBeta] at hm
  rcases List.mem_append.1 hm with hm | hm
  · obtain ⟨r, hr, hmr⟩ := List.mem_map.1 hm
    obtain ⟨p, hp, hpr⟩ := List.mem_filterMap.1 hr
    split_ifs at hpr with hvalid
    · have hrr := Option.some_inj.1 hpr
      obtain ⟨⟨v1, hv1⟩, ⟨v2, hv2⟩, i, hg1, hg2⟩ :=
        adjBrackets_mem (f_even ops n0 k0 nWG w) _ p hp
      have hb1 := f_even_some_bounds hv1
      have hb2 := f_even_some_bounds hv2
      have hblbr : p.1 < p.2 :=
        linspaceQ_step_pos hlt (by norm_num) hg1 hg2
      have hio := refine_root_mem (f_even ops n0 k0 nWG w) 50 p.1 p.2 hblbr
      rw [← hmr]
      rw [hrr] at hio
      exact ⟨lt_trans hb1.1 hio.1, lt_trans hio.2 hb2.2⟩
  · obtain ⟨r, hr, hmr⟩ := List.mem_map.1 hm
    obtain ⟨p, hp, hpr⟩ := List.mem_filterMap.1 hr
    split_ifs at hpr with hvalid
    · have hrr := Option.some_inj.1 hpr
      obtain ⟨⟨v1, hv1⟩, ⟨v2, hv2⟩, i, hg1, hg2⟩ :=
        adjBrackets_mem (f_odd ops n0 k0 nWG w) _ p hp
      have hb1 := f_odd_some_bounds hv1
      have hb2 := f_odd_some_bounds hv2
      have hblbr : p.1 < p.2 :=
        linspaceQ_step_pos hlt (by norm_num) hg1 hg2
      have hio := refine_root_mem (f_odd ops n0 k0 nWG w) 50 p.1 p.2 hblbr
      rw [← hmr]
      rw [hrr] at hio
      exact ⟨lt_trans hb1.1 hio.1, lt_trans hio.2 hb2.2⟩

/-- Witness for the amended claim C2: for the concrete search
`modes_sorted opsA 2 2 1 1` (which finds one even mode) every returned
propagation constant is strictly between `1` and `2`. -/
theorem mode_solver_beta_in_open_interval_witness :
    (1 : ℚ) * 1 < 2 * 1 ∧
    ∀ m ∈ modes_sorted opsA 2 2 1 1, (1 : ℚ) * 1 < m.2 ∧ m.2 < 2 * 1 :=
  ⟨by norm_num, mode_solver_beta_in_open_interval opsA 2 2 1 1 (by norm_num)⟩

/-- Internal: the sequential validation behaviour of `slab_mode_source`,
one conjunct per `raise` site. -/
theorem slab_mode_validation_aux (ops : RealOps) (w nWG n0 wavelength : ℚ)
    (ind_m : PyIndex) (x0 : ℚ) :
    (∀ d : ℕ, slab_mode_source ops (XInput.arrNd d) w nWG n0 wavelength ind_m x0 =
      .error .xNot1D) ∧
    ∀ xs : List ℚ,
      (w ≤ 0 →
        slab_mode_source ops (.arr1d xs) w nWG n0 wavelength ind_m x0 = .error .wNotPos) ∧
      (0 < w → nWG ≤ n0 →
        slab_mode_source ops (.arr1d xs) w nWG n0 wavelength ind_m x0 = .error .indexOrder) ∧
      (0 < w → n0 < nWG → n0 ≤ 0 →
        slab_mode_source ops (.arr1d xs) w nWG n0 wavelength ind_m x0 = .error .n0NotPos) ∧
      (0 < w → n0 < nWG → 0 < n0 → wavelength ≤ 0 →
        slab_mode_source ops (.arr1d xs) w nWG n0 wavelength ind_m x0 =
          .error .wavelengthNotPos) ∧
      (0 < w → n0 < nWG → 0 < n0 → 0 < wavelength →
        (ind_m.isInt = false ∨ ∃ k, ind_m = .pyInt k ∧ k < 0) →
        slab_mode_source ops (.arr1d xs) w nWG n0 wavelength ind_m x0 =
          .error .indMInvalid) := by
  refine ⟨fun d => rfl, fun xs => ⟨?_, ?_, ?_, ?_, ?_⟩⟩
  · intro h1
    simp only [slab_mode_source]
    rw [if_pos h1]
  · intro h1 h2
    simp only [slab_mode_source]
    rw [if_neg (not_le.2 h1), if_pos h2]
  · intro h1 h2 h3
    simp only [slab_mode_source]
    rw [if_neg (not_le.2 h1), if_neg (not_le.2 h2), if_pos h3]
  · intro h1 h2 h3 h4
    simp only [slab_mode_source]
    rw [if_neg (not_le.2 h1), if_neg (not_le.2 h2), if_neg (not_le.2 h3), if_pos h4]
  · intro h1 h2 h3 h4 h5
    simp only [slab_mode_source]
    rw [if_neg (not_le.2 h1), if_neg (not_le.2 h2), if_neg (not_le.2 h3),
      if_neg (not_le.2 h4)]
    rcases h5 with h5 | ⟨k, rfl, hk⟩
    · cases ind_m with
      | pyInt n => exact absurd h5 (by simp [PyIndex.isInt])
      | pyFloat q => rfl
      | pyNpInt n => rfl
    · dsimp only
      rw [if_pos hk]

/-- Claim C6: `slab_mode_source` fails with the appropriate `ValueError`
before any computation whenever a precondition is violated — `x` not 1D,
`w ≤ 0`, `n_WG ≤ n0`, `n0 ≤ 0`, `wavelength ≤ 0`, or `ind_m` negative (or
not an `int`) — with one independent check per condition, tried in source
order. In the model the validation precedes the `k0` computation and the
root scan definitionally, mirroring lines 59-72 of the source. -/
theorem slab_mode_source_validation (ops : RealOps) (w nWG n0 wavelength : ℚ)
    (ind_m : PyIndex) (x0 : ℚ) :
    (∀ d : ℕ, slab_mode_source ops (XInput.arrNd d) w nWG n0 wavelength ind_m x0 =
      .error .xNot1D) ∧
    ∀ xs : List ℚ,
      (w ≤ 0 →
        slab_mode_source ops (.arr1d xs) w nWG n0 wavelength ind_m x0 = .error .wNotPos) ∧
      (0 < w → nWG ≤ n0 →
        slab_mode_source ops (.arr1d xs) w nWG n0 wavelength ind_m x0 = .error .indexOrder) ∧
      (0 < w → n0 < nWG → n0 ≤ 0 →
        slab_mode_source ops (.arr1d xs) w nWG n0 wavelength ind_m x0 = .error .n0NotPos) ∧
      (0 < w → n0 < nWG → 0 < n0 → wavelength ≤ 0 →
        slab_mode_source ops (.arr1d xs) w nWG n0 wavelength ind_m x0 =
          .error .wavelengthNotPos) ∧
      (0 < w → n0 < nWG → 0 < n0 → 0 < wavelength →
        (ind_m.isInt = false ∨ ∃ k, ind_m = .pyInt k ∧ k < 0) →
        slab_mode_source ops (.arr1d xs) w nWG n0 wavelength ind_m x0 =
          .error .indMInvalid) :=
  slab_mode_validation_aux ops w nWG n0 wavelength ind_m x0

/-- Witness for claim C6: a non-positive width is rejected with the width
error. -/
theorem slab_mode_source_validation_witness :
    (-1 : ℚ) ≤ 0 ∧
    slab_mode_source opsA (.arr1d [0]) (-1) 2 1 1 (.pyInt 0) 0 = .error .wNotPos :=
  ⟨by norm_num,
    ((slab_mode_source_validation opsA (-1) 2 1 1 (.pyInt 0) 0).2 [0]).1 (by norm_num)⟩

/-- Claim C10: with otherwise valid parameters, `slab_mode_source` accepts
`ind_m` only when it is a Python `int`: every non-`int` runtime value —
including a whole-valued float such as `2.0` (`pyFloat 2`) and a numpy
integer scalar (`pyNpInt 2`) — is rejected with the same `ValueError` as a
negative index, even though the value denotes a valid non-negative mode
index. -/
theorem slab_mode_source_rejects_nonint (ops : RealOps) (xs : List ℚ)
    (w nWG n0 wavelength x0 : ℚ) (hw : 0 < w) (hord : n0 < nWG) (hn0 : 0 < n0)
    (hwl : 0 < wavelength) :
    (∀ v : PyIndex, v.isInt = false →
      slab_mode_source ops (.arr1d xs) w nWG n0 wavelength v x0 = .error .indMInvalid) ∧
    slab_mode_source ops (.arr1d xs) w nWG n0 wavelength (.pyInt (-1)) x0 =
      .error .indMInvalid := by
  constructor
  · intro v hv
    exact ((slab_mode_validation_aux ops w nWG n0 wavelength v x0).2 xs).2.2.2.2
      hw hord hn0 hwl (Or.inl hv)
  · exact ((slab_mode_validation_aux ops w nWG n0 wavelength (.pyInt (-1)) x0).2 xs).2.2.2.2
      hw hord hn0 hwl (Or.inr ⟨-1, rfl, by norm_num⟩)

/-- Witness for claim C10: the whole-valued float `2.0` is rejected exactly
like the negative index `-1`. -/
theorem slab_mode_source_rejects_nonint_witness :
    (0 : ℚ) < 2 ∧ (1 : ℚ) < 2 ∧ (0 : ℚ) < 1 ∧ (0 : ℚ) < 1 ∧
    (PyIndex.pyFloat 2).isInt = false ∧
    slab_mode_source opsA (.arr1d [0]) 2 2 1 1 (.pyFloat 2) 0 = .error .indMInvalid ∧
    slab_mode_source opsA (.arr1d [0]) 2 2 1 1 (.pyInt (-1)) 0 = .error .indMInvalid := by
  have h := slab_mode_source_rejects_nonint opsA [0] 2 2 1 1 0
    (by norm_num) (by norm_num) (by norm_num) (by norm_num)
  exact ⟨by norm_num, by norm_num, by norm_num, by norm_num, by decide,
    h.1 (.pyFloat 2) (by decide), h.2⟩

/-- Claim C7: whenever the dispersion-relation search finds at least one
guided mode (`c ≠ 0` modes) but the requested index `n` is at least the
count, `slab_mode_source` does not fail: it emits the non-fatal warning
(the returned flag is `true`), clamps the index to the highest available
mode `c - 1`, and returns that mode's normalized field. -/
theorem slab_mode_source_clamps (ops : RealOps) (xs : List ℚ)
    (w nWG n0 wavelength x0 : ℚ) (n : ℤ) (c : ℕ)
    (hw : 0 < w) (hord : n0 < nWG) (hn0 : 0 < n0) (hwl : 0 < wavelength)
    (hnn : 0 ≤ n)
    (hc : (modes_sorted ops w nWG n0 (2 * npPi / wavelength)).length = c)
    (hc0 : c ≠ 0) (hclamp : (c : ℤ) ≤ n) :
    slab_mode_source ops (.arr1d xs) w nWG n0 wavelength (.pyInt n) x0 =
      .ok (true, normalize_field ops xs (mode_field ops xs w x0 nWG n0
        (2 * npPi / wavelength)
        ((modes_sorted ops w nWG n0 (2 * npPi / wavelength)).getD (c - 1)
          (Parity.even, 0)))) := by
  simp only [slab_mode_source]
  rw [if_neg (not_le.2 hw), if_neg (not_le.2 hord), if_neg (not_le.2 hn0),
    if_neg (not_le.2 hwl), if_neg (not_lt.2 hnn)]
  have hlen : ((modes_sorted ops w nWG n0 (2 * npPi / wavelength)).length : ℤ) ≤ n := by
    rw [hc]
    exact hclamp
  have hemp : (modes_sorted ops w nWG n0 (2 * npPi / wavelength)).isEmpty = false := by
    rw [List.isEmpty_eq_false_iff_exists_mem]
    have hpos : 0 < (modes_sorted ops w nWG n0 (2 * npPi / wavelength)).length := by omega
    exact ⟨_, List.getElem_mem hpos⟩
  rw [hemp]
  simp only [Bool.false_eq_true, if_false]
  rw [if_pos hlen, decide_eq_true hlen, hc]

/-- Claim C5 (amended): whenever `slab_mode_source` successfully returns the
normalization of a constructed mode profile whose unnormalized trapezoidal
power `T` is nonzero — and the square-root oracle is exact on the values
involved (as the real square root is) — the trapezoidal integral of the
squared magnitude of the returned field over `x` is exactly 1. The original
unconditional claim fails when `T = 0` (for example on an empty or
single-point grid `x`); see the counterexample. -/
theorem slab_mode_normalization_amended (ops : RealOps) (xs : List ℚ)
    (w nWG n0 wavelength x0 : ℚ) (ind_m : PyIndex) (b : Bool) (m : Parity × ℚ)
    (hok : slab_mode_source ops (.arr1d xs) w nWG n0 wavelength ind_m x0 =
      .ok (b, normalize_field ops xs
        (mode_field ops xs w x0 nWG n0 (2 * npPi / wavelength) m)))
    (hT : trapezoidQ ((mode_field ops xs w x0 nWG n0 (2 * npPi / wavelength) m).map
      (abs_sq_np ops)) xs ≠ 0)
    (hsq : ops.sqrt (trapezoidQ ((mode_field ops xs w x0 nWG n0
        (2 * npPi / wavelength) m).map (abs_sq_np ops)) xs) ^ 2 =
      trapezoidQ ((mode_field ops xs w x0 nWG n0 (2 * npPi / wavelength) m).map
        (abs_sq_np ops)) xs)
    (hpt : ∀ zc ∈ mode_field ops xs w x0 nWG n0 (2 * npPi / wavelength) m,
      abs_sq_np ops (cdivq zc (ops.sqrt (trapezoidQ ((mode_field ops xs w x0 nWG n0
          (2 * npPi / wavelength) m).map (abs_sq_np ops)) xs))) =
        abs_sq_np ops zc / ops.sqrt (trapezoidQ ((mode_field ops xs w x0 nWG n0
          (2 * npPi / wavelength) m).map (abs_sq_np ops)) xs) ^ 2) :
    trapezoidQ ((normalize_field ops xs
      (mode_field ops xs w x0 nWG n0 (2 * npPi / wavelength) m)).map
        (abs_sq_np ops)) xs = 1 := by
  set raw := mode_field ops xs w x0 nWG n0 (2 * npPi / wavelength) m with hraw
  set T := trapezoidQ (raw.map (abs_sq_np ops)) xs with hTdef
  set nv := ops.sqrt T with hnv
  have h1 : normalize_field ops xs raw = raw.map (fun zc => cdivq zc nv) := rfl
  rw [h1, List.map_map]
  have h2 : raw.map ((abs_sq_np ops) ∘ (fun zc => cdivq zc nv)) =
      (raw.map (abs_sq_np ops)).map (fun q => q * (1 / nv ^ 2)) := by
    rw [List.map_map]
    apply List.map_congr_left
    intro zc hzc
    have hz := hpt zc hzc
    simp only [Function.comp_apply]
    rw [hz]
    ring
  rw [h2, trapezoidQ_map_mul (1 / nv ^ 2) (raw.map (abs_sq_np ops)) xs, ← hTdef, hsq]
  field_simp

/-- Counterexample to claim C2 as stated: with the step-jump oracle `opsB`
(and `w = 2`, `n_WG = 3`, `n0 = 1`, `k0 = 1`) the search returns a mode
whose even characteristic function is defined at the returned β yet has
magnitude at least `1e-9` (it is about 24): the scan brackets a sign jump
that contains no root, the 50 bisection iterations expire without meeting
the tolerance, `refine_root` returns its last midpoint anyway, and
`valid_even` accepts it (branch index 2). The same mechanism applies to
the float `tan`'s jump across the asymptotes of the higher even branches. -/
theorem mode_solver_tolerance_cex :
    ∃ m ∈ modes_sorted opsB 2 3 1 1,
      below_tol (char_fn opsB 1 1 3 2 m.1 m.2) = false := by decide

/-- Witness for claim C7: with the oracle `opsA` the search finds exactly
one mode; requesting mode index 5 returns that mode's normalized field with
the warning flag set. -/
theorem slab_mode_source_clamps_witness :
    (0 : ℚ) < 2 ∧ (1 : ℚ) < 2 ∧ (0 : ℚ) < 1 ∧ (0 : ℚ) < 2 * npPi ∧ (0 : ℤ) ≤ 5 ∧
    (modes_sorted opsA 2 2 1 (2 * npPi / (2 * npPi))).length = 1 ∧ (1 : ℕ) ≠ 0 ∧
    ((1 : ℕ) : ℤ) ≤ 5 ∧
    slab_mode_source opsA (.arr1d [0, 1]) 2 2 1 (2 * npPi) (.pyInt 5) 0 =
      .ok (true, normalize_field opsA [0, 1] (mode_field opsA [0, 1] 2 0 2 1
        (2 * npPi / (2 * npPi))
        ((modes_sorted opsA 2 2 1 (2 * npPi / (2 * npPi))).getD 0 (Parity.even, 0)))) := by
  have hc : (modes_sorted opsA 2 2 1 (2 * npPi / (2 * npPi))).length = 1 := by decide
  exact ⟨by norm_num, by norm_num, by norm_num, by decide, by decide, hc, by decide,
    by decide,
    slab_mode_source_clamps opsA [0, 1] 2 2 1 (2 * npPi) 0 5 1 (by norm_num)
      (by norm_num) (by norm_num) (by decide) (by decide) hc (by decide) (by decide)⟩

/-- Counterexample to claim C5 as stated: on the empty coordinate grid
`x = []` (a 1D array, so validation passes) `slab_mode_source` succeeds and
returns the empty field, whose trapezoidal integral is 0, not 1. (On a
single-point grid the same happens with a division of the field by the zero
norm.) -/
theorem slab_mode_normalization_cex :
    slab_mode_source opsA (.arr1d []) 2 2 1 (2 * npPi) (.pyInt 0) 0 =
      .ok (false, []) ∧
    trapezoidQ (([] : List CQ).map (abs_sq_np opsA)) [] ≠ 1 := by
  constructor
  · decide
  · decide

/-- Witness for the amended claim C5: a concrete successful call (oracle
`opsA`, grid `[0, 1]`, the single mode found by the search) whose
unnormalized power is 1; the returned field's trapezoidal integral is
exactly 1. -/
theorem slab_mode_normalization_amended_witness :
    slab_mode_source opsA (.arr1d [0, 1]) 2 2 1 (2 * npPi) (.pyInt 0) 0 =
      .ok (false, normalize_field opsA [0, 1] (mode_field opsA [0, 1] 2 0 2 1
        (2 * npPi / (2 * npPi)) (Parity.even, 3442478561 / 2096103424))) ∧
    trapezoidQ ((mode_field opsA [0, 1] 2 0 2 1 (2 * npPi / (2 * npPi))
      (Parity.even, 3442478561 / 2096103424)).map (abs_sq_np opsA)) [0, 1] ≠ 0 ∧
    opsA.sqrt (trapezoidQ ((mode_field opsA [0, 1] 2 0 2 1 (2 * npPi / (2 * npPi))
        (Parity.even, 3442478561 / 2096103424)).map (abs_sq_np opsA)) [0, 1]) ^ 2 =
      trapezoidQ ((mode_field opsA [0, 1] 2 0 2 1 (2 * npPi / (2 * npPi))
        (Parity.even, 3442478561 / 2096103424)).map (abs_sq_np opsA)) [0, 1] ∧
    (∀ zc ∈ mode_field opsA [0, 1] 2 0 2 1 (2 * npPi / (2 * npPi))
        (Parity.even, 3442478561 / 2096103424),
      abs_sq_np opsA (cdivq zc (opsA.sqrt (trapezoidQ ((mode_field opsA [0, 1] 2 0 2 1
          (2 * npPi / (2 * npPi)) (Parity.even, 3442478561 / 2096103424)).map
            (abs_sq_np opsA)) [0, 1]))) =
        abs_sq_np opsA zc / opsA.sqrt (trapezoidQ ((mode_field opsA [0, 1] 2 0 2 1
          (2 * npPi / (2 * npPi)) (Parity.even, 3442478561 / 2096103424)).map
            (abs_sq_np opsA)) [0, 1]) ^ 2) ∧
    trapezoidQ ((normalize_field opsA [0, 1] (mode_field opsA [0, 1] 2 0 2 1
      (2 * npPi / (2 * npPi)) (Parity.even, 3442478561 / 2096103424))).map
        (abs_sq_np opsA)) [0, 1] = 1 := by
  have hok : slab_mode_source opsA (.arr1d [0, 1]) 2 2 1 (2 * npPi) (.pyInt 0) 0 =
      .ok (false, normalize_field opsA [0, 1] (mode_field opsA [0, 1] 2 0 2 1
        (2 * npPi / (2 * npPi)) (Parity.even, 3442478561 / 2096103424))) := by decide
  have hT : trapezoidQ ((mode_field opsA [0, 1] 2 0 2 1 (2 * npPi / (2 * npPi))
      (Parity.even, 3442478561 / 2096103424)).map (abs_sq_np opsA)) [0, 1] ≠ 0 := by
    decide
  have hsq : opsA.sqrt (trapezoidQ ((mode_field opsA [0, 1] 2 0 2 1
        (2 * npPi / (2 * npPi)) (Parity.even, 3442478561 / 2096103424)).map
          (abs_sq_np opsA)) [0, 1]) ^ 2 =
      trapezoidQ ((mode_field opsA [0, 1] 2 0 2 1 (2 * npPi / (2 * npPi))
        (Parity.even, 3442478561 / 2096103424)).map (abs_sq_np opsA)) [0, 1] := by
    decide
  have hpt : ∀ zc ∈ mode_field opsA [0, 1] 2 0 2 1 (2 * npPi / (2 * npPi))
      (Parity.even, 3442478561 / 2096103424),
      abs_sq_np opsA (cdivq zc (opsA.sqrt (trapezoidQ ((mode_field opsA [0, 1] 2 0 2 1
          (2 * npPi / (2 * npPi)) (Parity.even, 3442478561 / 2096103424)).map
            (abs_sq_np opsA)) [0, 1]))) =
        abs_sq_np opsA zc / opsA.sqrt (trapezoidQ ((mode_field opsA [0, 1] 2 0 2 1
          (2 * npPi / (2 * npPi)) (Parity.even, 3442478561 / 2096103424)).map
            (abs_sq_np opsA)) [0, 1]) ^ 2 := by decide
  exact ⟨hok, hT, hsq, hpt,
    slab_mode_normalization_amended opsA [0, 1] 2 2 1 (2 * npPi) 0 (.pyInt 0) false
      (Parity.even, 3442478561 / 2096103424) hok hT hsq hpt⟩

/-- Counterexample to claim C9 as stated: on the mirror-symmetric grid
`x = [-1, 1]` with `x0 = 0`, a successful `ind_m = 0` call returns a field
that is not even — the mirrored values differ by about `0.075`. Under the
oracle `opsC` the only mode the search finds is odd-parity, so the
"fundamental" (largest found β) is odd and its profile is antisymmetric.
The real program exhibits the same behaviour: with `w = 500`, `n_WG = 1.1`,
`n0 = 1`, `λ = 0.532` the float scan misses the narrow fundamental even
branch and the highest-β mode found is odd. -/
theorem slab_mode_parity_cex :
    mirror_mismatch_check
      (slab_mode_source opsC (.arr1d [-1, 1]) 2 3 1 (2 * npPi) (.pyInt 0) 0) = true := by
  decide

/-- Claim C9 (amended): the mode-profile construction itself is symmetric
for even-parity modes — with `x0 = 0`, an even `cos` oracle (as the IEEE
`cos` is), and two mirrored grid points, the normalized field takes equal
values at the two points. The original claim fails only in that the mode
ranked first need not be even-parity (see the counterexample). -/
theorem mode_field_even_symmetric (ops : RealOps) (xs : List ℚ)
    (w nWG n0 k0 r : ℚ) (i j : ℕ)
    (hcos : ∀ t, ops.cos (-t) = ops.cos t)
    (hi : i < xs.length) (hj : j < xs.length)
    (hij : xs.getD i 0 = -(xs.getD j 0)) :
    (normalize_field ops xs (mode_field ops xs w 0 nWG n0 k0 (Parity.even, r))).getD i
      cZero =
    (normalize_field ops xs (mode_field ops xs w 0 nWG n0 k0 (Parity.even, r))).getD j
      cZero := by
  have hmodeq : mode_field ops xs w 0 nWG n0 k0 (Parity.even, r) =
      xs.map (fun xi =>
        if |xi - 0| ≤ w / 2 then
          mkC (ops.cos (ops.sqrt (nWG ^ 2 * k0 ^ 2 - r ^ 2) * (xi - 0))) 0
        else
          mkC (ops.cos (ops.sqrt (nWG ^ 2 * k0 ^ 2 - r ^ 2) * (w / 2)) *
            ops.exp (-(ops.sqrt (r ^ 2 - n0 ^ 2 * k0 ^ 2)) * (|xi - 0| - w / 2))) 0) := rfl
  have hsym : ∀ t1 t2 : ℚ, t1 = -t2 →
      (fun xi : ℚ =>
        if |xi - 0| ≤ w / 2 then
          mkC (ops.cos (ops.sqrt (nWG ^ 2 * k0 ^ 2 - r ^ 2) * (xi - 0))) 0
        else
          mkC (ops.cos (ops.sqrt (nWG ^ 2 * k0 ^ 2 - r ^ 2) * (w / 2)) *
            ops.exp (-(ops.sqrt (r ^ 2 - n0 ^ 2 * k0 ^ 2)) * (|xi - 0| - w / 2))) 0) t1 =
      (fun xi : ℚ =>
        if |xi - 0| ≤ w / 2 then
          mkC (ops.cos (ops.sqrt (nWG ^ 2 * k0 ^ 2 - r ^ 2) * (xi - 0))) 0
        else
          mkC (ops.cos (ops.sqrt (nWG ^ 2 * k0 ^ 2 - r ^ 2) * (w / 2)) *
            ops.exp (-(ops.sqrt (r ^ 2 - n0 ^ 2 * k0 ^ 2)) * (|xi - 0| - w / 2))) 0) t2 := by
    rintro t1 t2 rfl
    dsimp only
    have habs : |(-t2) - 0| = |t2 - 0| := by
      rw [show -t2 - 0 = -(t2 - 0) by ring, abs_neg]
    rw [habs]
    split_ifs with hb
    · rw [show ops.sqrt (nWG ^ 2 * k0 ^ 2 - r ^ 2) * (-t2 - 0) =
        -(ops.sqrt (nWG ^ 2 * k0 ^ 2 - r ^ 2) * (t2 - 0)) by ring, hcos]
    · rfl
  have hnorm : normalize_field ops xs (mode_field ops xs w 0 nWG n0 k0 (Parity.even, r)) =
      (mode_field ops xs w 0 nWG n0 k0 (Parity.even, r)).map (fun z =>
        cdivq z (ops.sqrt (trapezoidQ
          ((mode_field ops xs w 0 nWG n0 k0 (Parity.even, r)).map (abs_sq_np ops)) xs))) :=
    rfl
  rw [hnorm, List.getD_eq_getElem?_getD, List.getD_eq_getElem?_getD,
    List.getElem?_map, List.getElem?_map, hmodeq, List.getElem?_map, List.getElem?_map,
    List.getElem?_eq_getElem hi, List.getElem?_eq_getElem hj]
  simp only [Option.map_some', Option.getD_some]
  congr 1
  rw [show xs[i] = xs.getD i 0 from (List.getD_eq_getElem xs 0 hi).symm,
    show xs[j] = xs.getD j 0 from (List.getD_eq_getElem xs 0 hj).symm]
  exact hsym _ _ hij

/-- Witness for the amended claim C9: under `opsA` (whose `cos` is constant,
hence even) the even-mode profile over the mirrored grid `[-1, 1]` takes the
same value at both points. -/
theorem mode_field_even_symmetric_witness :
    (0 : ℕ) < ([-1, 1] : List ℚ).length ∧ (1 : ℕ) < ([-1, 1] : List ℚ).length ∧
    ([-1, 1] : List ℚ).getD 0 0 = -(([-1, 1] : List ℚ).getD 1 0) ∧
    (normalize_field opsA [-1, 1]
      (mode_field opsA [-1, 1] 2 0 2 1 1 (Parity.even, 1))).getD 0 cZero =
    (normalize_field opsA [-1, 1]
      (mode_field opsA [-1, 1] 2 0 2 1 1 (Parity.even, 1))).getD 1 cZero :=
  ⟨by decide, by decide, by decide,
    mode_field_even_symmetric opsA [-1, 1] 2 2 1 1 1 0 1 (fun t => rfl)
      (by decide) (by decide) (by decide)⟩



end ClaimSection
